import Mathlib

/-!
# Verification of the sphinx-a4doc Grammar Model Builder

Shallow embedding of `sphinx_a4doc/model/impl.py`: the rule-content
combinators (`RuleLoader.wrap_suffix`, `make_alt_rule`, `make_seq_rule`),
the documentation extractor (`CMD_RE`, `RuleLoader.load_docs`), the model
cache (`ModelCacheImpl.from_file` / `from_text` / `_do_load`), the meta
pass (`MetaLoader`), and the model lookup (`ModelImpl.lookup_local`).

The rule-node data family and the rule dataclasses live in
`sphinx_a4doc/model/model.py`, which is not part of the sources at hand;
those data declarations are modelled from the spec (section 3) and are
marked as such.  All behaviour proved below is translated from `impl.py`.
-/

set_option maxHeartbeats 1000000

/-- Modelled from the spec: the Rule Content Tree node family of
`model.py` (section 3 of the spec).  `LexerRule.*` and `ParserRule.*` are
two structurally identical node families in the source; they are embedded
once.  The `Reference` node's owning-model back-reference is represented
by nothing here: it does not take part in any structural law proved below
(`Reference` stores a name, resolved lazily). -/
inductive Rule where
  | empty : Rule
  | wildcard : Rule
  | literal (content : String) : Rule
  | charSet (content : String) : Rule
  | range (first last : String) : Rule
  | reference (name : String) : Rule
  | negation (child : Rule) : Rule
  | sequence (children : List Rule) : Rule
  | alternative (children : List Rule) : Rule
  | maybe (child : Rule) : Rule
  | onePlus (child : Rule) : Rule
  | zeroPlus (child : Rule) : Rule

/-- `isinstance(x, rule_class.Maybe)` in the source. -/
def isMaybeNode : Rule → Bool
  | .maybe _ => true
  | _ => false

/-- `isinstance(x, rule_class.Sequence)` in the source. -/
def isSequenceNode : Rule → Bool
  | .sequence _ => true
  | _ => false

/-- `isinstance(x, rule_class.Alternative)` in the source. -/
def isAlternativeNode : Rule → Bool
  | .alternative _ => true
  | _ => false

/-- `x == rule_class.EMPTY` in the source (dataclass structural equality
with the field-less `Empty()` singleton holds exactly for `Empty` nodes). -/
def isEmptyNode : Rule → Bool
  | .empty => true
  | _ => false

/-- `isinstance(x, rule_class.Literal)` in the source. -/
def isLiteralNode : Rule → Bool
  | .literal _ => true
  | _ => false

/-- Match a literal character sequence at the head of the input, returning
the remainder. -/
def litChars : List Char → List Char → Option (List Char)
  | [], cs => some cs
  | p :: ps, c :: cs => if c = p then litChars ps cs else none
  | _ :: _, [] => none

/-- `str.startswith` (kernel-computable counterpart of
`String.startsWith`). -/
def strStartsWith (s pre : String) : Bool :=
  (litChars pre.toList s.toList).isSome

/-- The Python slice `s[n:]`. -/
def strDrop (s : String) (n : Nat) : String :=
  String.mk (s.toList.drop n)

/-- The Python slice `s[:-n]` (for `n ≥ 1`). -/
def strDropRight (s : String) (n : Nat) : String :=
  String.mk (s.toList.take (s.toList.length - n))

/-- `RuleLoader.wrap_suffix` (impl.py lines 210-225).  `suffix` is the
optional suffix token, represented by its `getText()` result. -/
def wrap_suffix (element : Rule) (suffix : Option String) : Rule :=
  if isEmptyNode element then element
  else
    match suffix with
    | none => element
    | some s =>
      if strStartsWith s "?" then
        if isMaybeNode element then element else Rule.maybe element
      else if strStartsWith s "+" then Rule.onePlus element
      else if strStartsWith s "*" then Rule.zeroPlus element
      else element

/-- One iteration of the loop in `RuleLoader.make_alt_rule`
(impl.py lines 231-240).  The state is `(has_empty_alt, alts)`. -/
def altAccumStep (st : Bool × List Rule) (a : Rule) : Bool × List Rule :=
  let p : Bool × Rule :=
    match a with
    | .maybe c => (true, c)
    | _ => (st.1, a)
  if isEmptyNode p.2 then (true, st.2)
  else
    match p.2 with
    | .alternative cs => (p.1, st.2 ++ cs)
    | _ => (p.1, st.2 ++ [p.2])

/-- `RuleLoader.make_alt_rule` (impl.py lines 227-254), acting on the list
of already-visited sub-results (the source visits each child context with
`self.visit(alt)` first; here the visited results are the input). -/
def make_alt_rule (content : List Rule) : Rule :=
  let r := content.foldl altAccumStep (false, [])
  match r.2 with
  | [] => Rule.empty
  | [a] => if r.1 then Rule.maybe a else a
  | alts => if r.1 then Rule.maybe (Rule.alternative alts) else Rule.alternative alts

/-- One iteration of the loop in `RuleLoader.make_seq_rule`
(impl.py lines 259-263). -/
def seqAccumStep (els : List Rule) (e : Rule) : List Rule :=
  match e with
  | .sequence cs => els ++ cs
  | _ => els ++ [e]

/-- `RuleLoader.make_seq_rule` (impl.py lines 256-268), acting on the list
of already-visited sub-results. -/
def make_seq_rule (content : List Rule) : Rule :=
  let elements := content.foldl seqAccumStep []
  match elements with
  | [e] => e
  | els => Rule.sequence els

mutual

/-- The structural invariant of section 3 of the spec: `Sequence` /
`Alternative` nodes are never directly nested inside a node of the same
kind, never hold fewer than two children, and `Maybe` never directly wraps
a `Maybe`. -/
def wf : Rule → Bool
  | .empty => true
  | .wildcard => true
  | .literal _ => true
  | .charSet _ => true
  | .range _ _ => true
  | .reference _ => true
  | .negation c => wf c
  | .maybe c => !isMaybeNode c && wf c
  | .onePlus c => wf c
  | .zeroPlus c => wf c
  | .sequence cs => decide (2 ≤ cs.length) && cs.all (fun c => !isSequenceNode c) && wfList cs
  | .alternative cs => decide (2 ≤ cs.length) && cs.all (fun c => !isAlternativeNode c) && wfList cs

/-- `wf` on every element of a list. -/
def wfList : List Rule → Bool
  | [] => true
  | c :: cs => wf c && wfList cs

end

/-! ## Python string primitives used by the documentation extractor

`str.strip` / `lstrip` / `rstrip`, `str.splitlines`, `int(...)`,
`textwrap.dedent` and the `CMD_RE` regular expression, each translated for
the ASCII fragment actually exercised by grammar comments (the additional
Unicode whitespace and digit classes accepted by Python are not
represented). -/

/-- Python's `\s` character class / `str.strip` whitespace, ASCII part:
space, tab, newline, carriage return, vertical tab, form feed. -/
def isPySpace (c : Char) : Bool :=
  c = ' ' || c = '\t' || c = '\n' || c = '\r' || c = '\x0b' || c = '\x0c'

/-- The `[a-zA-Z0-9_-]` character class of `CMD_RE`. -/
def isCmdChar (c : Char) : Bool :=
  c.isAlpha || c.isDigit || c = '_' || c = '-'

/-- `str.strip()`. -/
def pyStrip (s : String) : String :=
  String.mk (((s.toList.dropWhile isPySpace).reverse.dropWhile isPySpace).reverse)

/-- `str.lstrip()`. -/
def pyLStrip (s : String) : String :=
  String.mk (s.toList.dropWhile isPySpace)

/-- `str.rstrip()`. -/
def pyRStrip (s : String) : String :=
  String.mk ((s.toList.reverse.dropWhile isPySpace).reverse)

/-- Helper for `pySplitlines`: accumulates the current line (reversed). -/
def pySplitlinesAux : List Char → List Char → List String
  | [], acc => if acc.isEmpty then [] else [String.mk acc.reverse]
  | '\r' :: '\n' :: cs, acc => String.mk acc.reverse :: pySplitlinesAux cs []
  | '\r' :: cs, acc => String.mk acc.reverse :: pySplitlinesAux cs []
  | '\n' :: cs, acc => String.mk acc.reverse :: pySplitlinesAux cs []
  | c :: cs, acc => pySplitlinesAux cs (c :: acc)

/-- `str.splitlines()` for the `\n` / `\r` / `\r\n` terminators: a
trailing terminator produces no trailing empty line and the empty string
splits to no lines at all. -/
def pySplitlines (s : String) : List String :=
  pySplitlinesAux s.toList []

/-- Digits (with Python 3's underscores-between-digits) after the first
digit, for `int(...)`. -/
def pyDigitsRest (acc : Nat) : List Char → Option Nat
  | [] => some acc
  | '_' :: c :: cs =>
    if c.isDigit then pyDigitsRest (acc * 10 + (c.toNat - '0'.toNat)) cs else none
  | c :: cs =>
    if c.isDigit then pyDigitsRest (acc * 10 + (c.toNat - '0'.toNat)) cs else none

/-- A non-empty run of digits for `int(...)`. -/
def pyParseNat : List Char → Option Nat
  | c :: cs => if c.isDigit then pyDigitsRest (c.toNat - '0'.toNat) cs else none
  | [] => none

/-- Python's `int(...)` on an already-stripped string: optional sign, then
a non-empty digit run; anything else raises `ValueError`, embedded as
`none`. -/
def pyInt (s : String) : Option Int :=
  match s.toList with
  | '-' :: rest => (pyParseNat rest).map (fun n => -(n : Int))
  | '+' :: rest => (pyParseNat rest).map (fun n => (n : Int))
  | cs => (pyParseNat cs).map (fun n => (n : Int))

/-- `CMD_RE.match` (impl.py lines 28-30): the anchored verbose pattern
`//@\s*doc\s*:\s*(?P<cmd>[a-zA-Z0-9_-]+)\s*(?P<ctx>.*)`; returns the
`cmd` and `ctx` groups on success (`.*` stops at a newline). -/
def cmdReMatch (text : String) : Option (String × String) :=
  match litChars ['/', '/', '@'] text.toList with
  | none => none
  | some cs =>
    let cs := cs.dropWhile isPySpace
    match litChars ['d', 'o', 'c'] cs with
    | none => none
    | some cs =>
      let cs := cs.dropWhile isPySpace
      match litChars [':'] cs with
      | none => none
      | some cs =>
        let cs := cs.dropWhile isPySpace
        let cmd := cs.takeWhile isCmdChar
        if cmd.isEmpty then none
        else
          let rest := (cs.dropWhile isCmdChar).dropWhile isPySpace
          some (String.mk cmd, String.mk (rest.takeWhile (fun c => c ≠ '\n')))

/-- Modelled from the spec (refinement comparison for the directive
pattern): the spec's words say a `//@` token "is parsed against the
pattern `//@ <command> <rest-of-line>`", i.e. the same matcher without
the `doc:` marker that `CMD_RE` requires. -/
def specDirectiveMatch (text : String) : Option (String × String) :=
  match litChars ['/', '/', '@'] text.toList with
  | none => none
  | some cs =>
    let cs := cs.dropWhile isPySpace
    let cmd := cs.takeWhile isCmdChar
    if cmd.isEmpty then none
    else
      let rest := (cs.dropWhile isCmdChar).dropWhile isPySpace
      some (String.mk cmd, String.mk (rest.takeWhile (fun c => c ≠ '\n')))

/-- `[ \t]` (the whitespace notion of `textwrap.dedent`'s regexes). -/
def isTabOrSpace (c : Char) : Bool := c = ' ' || c = '\t'

/-- Longest common prefix of two character lists (the mismatch loop of
`textwrap.dedent`'s margin computation). -/
def commonPreChars : List Char → List Char → List Char
  | x :: xs, y :: ys => if x = y then x :: commonPreChars xs ys else []
  | _, _ => []

/-- The margin-folding loop of `textwrap.dedent`. -/
def dedentMargin (indents : List String) : String :=
  match indents with
  | [] => ""
  | i :: rest =>
    rest.foldl
      (fun margin indent =>
        if strStartsWith indent margin then margin
        else if strStartsWith margin indent then indent
        else String.mk (commonPreChars margin.toList indent.toList))
      i

/-- Helper for `splitOnNl`. -/
def splitOnNlAux : List Char → List Char → List String
  | [], acc => [String.mk acc.reverse]
  | '\n' :: cs, acc => String.mk acc.reverse :: splitOnNlAux cs []
  | c :: cs, acc => splitOnNlAux cs (c :: acc)

/-- `str.split('\n')`: the empty string yields one empty field and a
trailing separator yields a trailing empty field. -/
def splitOnNl (s : String) : List String :=
  splitOnNlAux s.toList []

/-- `textwrap.dedent`: lines holding only spaces/tabs are normalized to
empty; the common leading `[ \t]*` margin of the remaining non-empty
lines is removed from every line that carries it. -/
def pyDedent (text : String) : String :=
  let lines := splitOnNl text
  let lines := lines.map (fun l =>
    if l ≠ "" ∧ l.toList.all isTabOrSpace then "" else l)
  let indents := (lines.filter (fun l => l ≠ "")).map
    (fun l => String.mk (l.toList.takeWhile isTabOrSpace))
  let margin := dedentMargin indents
  if margin = "" then String.intercalate "\n" lines
  else
    String.intercalate "\n"
      (lines.map (fun l => if strStartsWith l margin then strDrop l margin.length else l))

/-! ## The documentation extractor (`RuleLoader.load_docs`) -/

/-- A comment token preceding a rule: its `text` and `line`. -/
structure Token where
  text : String
  line : Int

/-- A `Position` (file path and line) as used for diagnostics. -/
structure Position where
  file : String
  line : Int

/-- Render a position the way diagnostic messages embed it. -/
def Position.fmt (p : Position) : String :=
  p.file ++ ":" ++ toString p.line

/-- The mutable locals of `RuleLoader.load_docs` (impl.py lines 271-276). -/
structure DocAccum where
  isDoxygenNodoc : Bool
  isDoxygenInline : Bool
  cssClass : String
  (importance : Int)
  name : Option String
  documentationLines : List String

/-- The initial `load_docs` state: `importance` defaults to 1, everything
else is unset. -/
def initDocAccum : DocAccum :=
  { isDoxygenNodoc := false, isDoxygenInline := false, cssClass := ""
    name := none, importance := 1, documentationLines := [] }

/-- The result dictionary of `load_docs` (impl.py lines 341-348). -/
structure DocInfo where
  cssClass : String
  (importance : Int)
  isDoxygenInline : Bool
  isDoxygenNodoc : Bool
  name : Option String
  documentation : String

/-- The trailing argument-ignored check of `load_docs` (impl.py lines
315-316), reached by every directive branch that does not `continue`. -/
def finishCmd (cmd ctx : String) (acc : DocAccum) (diags : List String) :
    DocAccum × List String :=
  if cmd ∉ ["name", "class", "importance"] ∧ ctx ≠ "" then
    (acc, diags ++ ["argument for " ++ cmd ++ " command is ignored"])
  else (acc, diags)

/-- The command dispatch chain of `load_docs` (impl.py lines 288-316).
Diagnostics are accumulated in order; the `continue` statements of the
source (invalid importance argument, empty name argument) skip
`finishCmd`. -/
def applyCmd (pos : Position) (acc : DocAccum) (diags : List String)
    (cmd ctx : String) : DocAccum × List String :=
  if cmd = "nodoc" then
    finishCmd cmd ctx { acc with isDoxygenNodoc := true } diags
  else if cmd = "inline" then
    finishCmd cmd ctx { acc with isDoxygenInline := true } diags
  else if cmd = "unimportant" then
    finishCmd cmd ctx { acc with importance := 0 } diags
  else if cmd = "class" then
    finishCmd cmd ctx { acc with cssClass := pyStrip ctx } diags
  else if cmd = "importance" then
    match pyInt (pyStrip ctx) with
    | none =>
      (acc, diags ++ [pos.fmt ++ ": WARNING: importance requires an integer argument"])
    | some val =>
      let diags :=
        if val < 0 then diags ++ [pos.fmt ++ ": WARNING: importance should not be negative"]
        else diags
      finishCmd cmd ctx { acc with importance := val } diags
  else if cmd = "name" then
    let n := pyStrip ctx
    if n = "" then
      (acc, diags ++ [pos.fmt ++ ": WARNING: name command requires an argument"])
    else finishCmd cmd ctx { acc with name := some n } diags
  else
    finishCmd cmd ctx acc
      (diags ++ [pos.fmt ++ ": WARNING: unknown command " ++ cmd])

/-- The free-text branch of `load_docs` (impl.py lines 317-339): strip the
comment fences, drop a uniform `*` gutter, dedent, and append the chunk to
the accumulated documentation lines. -/
def appendDocText (acc : DocAccum) (text : String) : DocAccum :=
  let lines := (pySplitlines text).map pyStrip
  match lines with
  | [] => acc
  | [l] =>
    { acc with documentationLines :=
        acc.documentationLines ++ [pyStrip (strDropRight (strDrop l 3) 2)] }
  | firstLine :: rest =>
    let firstLine := pyLStrip (strDrop firstLine 3)
    let docLines :=
      if firstLine ≠ "" then acc.documentationLines ++ [firstLine]
      else acc.documentationLines
    let lastLine := pyRStrip (strDropRight ((rest.getLast?).getD "") 2)
    let rest := rest.dropLast ++ [lastLine]
    let rest := if lastLine = "" then rest.dropLast else rest
    let rest :=
      if rest.all (fun l => strStartsWith l "*") then rest.map (fun l => strDrop l 1)
      else rest
    let chunk := pyDedent (String.intercalate "\n" rest)
    { acc with documentationLines := docLines ++ [chunk] }

/-- One iteration of the token loop of `load_docs` (impl.py lines
278-339).  Diagnostics emitted through the logger are threaded in the
second component. -/
def processDocToken (modelPath : String) (offset : Int)
    (st : DocAccum × List String) (tok : Token) : DocAccum × List String :=
  let pos : Position := { file := modelPath, line := tok.line + offset }
  if strStartsWith tok.text "//@" then
    match cmdReMatch tok.text with
    | none =>
      (st.1, st.2 ++ [pos.fmt ++ ": WARNING: invalid command " ++ tok.text])
    | some (cmd, ctx) => applyCmd pos st.1 st.2 cmd ctx
  else
    (appendDocText st.1 tok.text, st.2)

/-- `RuleLoader.load_docs` (impl.py lines 270-348): fold the token run and
package the result dictionary.  Returns the extracted info together with
the diagnostics reported while extracting. -/
def load_docs (modelPath : String) (offset : Int) (tokens : List Token) :
    DocInfo × List String :=
  let r := tokens.foldl (processDocToken modelPath offset) (initDocAccum, [])
  ({ cssClass := r.1.cssClass, importance := r.1.importance
     isDoxygenInline := r.1.isDoxygenInline, isDoxygenNodoc := r.1.isDoxygenNodoc
     name := r.1.name
     documentation := String.intercalate "\n" r.1.documentationLines }, r.2)

/-! ## The model data structures

`LexerRule` / `ParserRule` / `Model` live in `model.py`, which is not part
of the sources at hand; the dataclass fields are modelled from the spec
(section 3, RuleBase / Model) and from the constructor keyword arguments
used in `impl.py`. -/

/-- Modelled from the spec: the `LexerRule` dataclass (RuleBase fields
plus `is_fragment` / `is_literal`).  The owning-model back-reference is
represented by the owning model's path.  The `is_doxygen_important`
keyword passed for implicit token declarations has no counterpart in the
spec's field list and is not represented. -/
structure LexerRuleData where
  name : String
  displayName : Option String
  position : Position
  modelPath : String
  isLiteral : Bool
  isFragment : Bool
  content : Option Rule
  isDoxygenNodoc : Bool
  isDoxygenInline : Bool
  (importance : Int)
  cssClass : String
  documentation : String

/-- Modelled from the spec: the `ParserRule` dataclass (RuleBase fields). -/
structure ParserRuleData where
  name : String
  displayName : Option String
  position : Position
  modelPath : String
  content : Option Rule
  isDoxygenNodoc : Bool
  isDoxygenInline : Bool
  (importance : Int)
  cssClass : String
  documentation : String

/-- Insertion-ordered map update, mirroring Python dict assignment
(`d[k] = v`: replaces in place or appends). -/
def alSet {α : Type} : List (String × α) → String → α → List (String × α)
  | [], k, v => [(k, v)]
  | (k', v') :: rest, k, v =>
    if k' = k then (k, v) :: rest else (k', v') :: alSet rest k v

/-- Python dict lookup (`k in d` / `d[k]`). -/
def alGet {α : Type} : List (String × α) → String → Option α
  | [], _ => none
  | (k', v') :: rest, k => if k' = k then some v' else alGet rest k

/-- `ModelImpl` (impl.py lines 101-147): path, line offset, in-memory
flag, the two rule maps and the import set.  Python's `_imports` is a set
of `Model` references deduplicated by object identity; it is embedded as
the list of models in insertion order (no two identical models are ever
added in the behaviours proved here). -/
inductive ModelData where
  | mk (path : String) (offset : Int) (inMemory : Bool)
       (lexerRules : List (String × LexerRuleData))
       (parserRules : List (String × ParserRuleData))
       (imports : List ModelData)

def ModelData.path : ModelData → String
  | .mk p _ _ _ _ _ => p

def ModelData.offset : ModelData → Int
  | .mk _ o _ _ _ _ => o

def ModelData.inMemory : ModelData → Bool
  | .mk _ _ m _ _ _ => m

def ModelData.lexerRules : ModelData → List (String × LexerRuleData)
  | .mk _ _ _ l _ _ => l

def ModelData.parserRules : ModelData → List (String × ParserRuleData)
  | .mk _ _ _ _ p _ => p

def ModelData.imports : ModelData → List ModelData
  | .mk _ _ _ _ _ i => i

/-- `ModelImpl.add_import` (impl.py lines 120-124).  The two assertions of
the source (neither model is in-memory) always hold at its call sites and
are not represented. -/
def ModelData.addImport : ModelData → ModelData → ModelData
  | .mk p o im l pr is, m => .mk p o im l pr (is ++ [m])

/-- `ModelImpl.set_lexer_rule` (impl.py lines 126-127). -/
def ModelData.setLexerRule : ModelData → String → LexerRuleData → ModelData
  | .mk p o im l pr is, n, r => .mk p o im (alSet l n r) pr is

/-- `ModelImpl.set_parser_rule` (impl.py lines 129-130). -/
def ModelData.setParserRule : ModelData → String → ParserRuleData → ModelData
  | .mk p o im l pr is, n, r => .mk p o im l (alSet pr n r) is

/-- `ModelImpl.lookup_local` (impl.py lines 132-138): the lexer-rule map
is consulted first, then the parser-rule map, then `None`. -/
def ModelData.lookup_local (m : ModelData) (name : String) :
    Option (Sum LexerRuleData ParserRuleData) :=
  match alGet m.lexerRules name with
  | some r => some (Sum.inl r)
  | none =>
    match alGet m.parserRules name with
    | some r => some (Sum.inr r)
    | none => none

/-- `ModelImpl.__init__` (impl.py lines 102-109): a fresh model with empty
rule maps and no imports. -/
def freshModel (path : String) (offset : Int) (inMemory : Bool) : ModelData :=
  .mk path offset inMemory [] [] []

/-! ## The parse-tree boundary

The external ANTLR lexer/parser is out of scope (spec section 6): it
yields a tree of typed nodes plus a syntax-error count.  Only the node
kinds the loaders dispatch on are represented.  A rule body's sub-tree is
abstracted by the Rule Content Tree that visiting it produces — the visit
combinators themselves (`wrap_suffix`, `make_alt_rule`, `make_seq_rule`,
`visitTerminalLit`, ...) are embedded separately above. -/

/-- The prequel constructs the meta pass dispatches on: an `option`
(`visitOption`), a delegate grammar (`visitDelegateGrammar`) and a
`tokens {...}` block (`visitTokensSpec`), each with the source line used
for positions. -/
inductive MetaDecl where
  | option (name value : String) (line : Int)
  | delegate (value : String) (line : Int)
  | tokensSpec (defs : List (String × Int))

/-- A `lexerRuleSpec` context: rule name, start line, preceding comment
run, fragment marker, and the content produced by visiting
`ctx.lexerRuleBlock()`. -/
structure LexerSpecCtx where
  name : String
  line : Int
  docs : List Token
  frag : Bool
  content : Rule

/-- A `parserRuleSpec` context: rule name, start line, preceding comment
run, and the content produced by visiting `ctx.ruleBlock()`. -/
structure ParserSpecCtx where
  name : String
  line : Int
  docs : List Token
  content : Rule

/-- The parse tree as the three loaders observe it. -/
structure GrammarTree where
  metaDecls : List MetaDecl
  lexerSpecs : List LexerSpecCtx
  parserSpecs : List ParserSpecCtx

/-- What `parser.grammarSpec()` plus `parser.getNumberOfSyntaxErrors()`
deliver for one input text. -/
structure ParseOutcome where
  numErrors : Nat
  tree : GrammarTree

/-- The external collaborators of the cache: `os.path` operations, the
filesystem, and the ANTLR parser. -/
structure Env where
  normpath : String → String
  abspath : String → String
  dirname : String → String
  joinPath : String → String → String
  pathExists : String → Bool
  readFile : String → String
  parse : String → ParseOutcome

/-- `ModelCacheImpl` state: the `_loaded` memoization map, plus the
observable side effects — the diagnostics reported through the logger and
the number of times the external parser ran (the parse side-effect counter
of the spec's memoization property). -/
structure CacheState where
  loaded : List (String × ModelData)
  diagnostics : List String
  parseCount : Nat

/-- `LexerRuleLoader.visitTerminalLit` (impl.py lines 424-429): the empty
string literal becomes `EMPTY`, any other literal a `Literal` node. -/
def visitTerminalLit (text : String) : Rule :=
  if text = "''" then Rule.empty else Rule.literal text

/-- The literal test of `visitLexerRuleSpec` (impl.py lines 365-370):
whether the content is a `Literal` node, and if so its text. -/
def litInfoOf (content : Rule) : Bool × String :=
  match content with
  | Rule.literal t => (true, t)
  | _ => (false, "")

/-- The `LexerRule` value constructed by `visitLexerRuleSpec`
(impl.py lines 372-385). -/
def builtLexerRule (m : ModelData) (ctx : LexerSpecCtx) : LexerRuleData :=
  let docInfo := load_docs m.path m.offset ctx.docs
  { name := ctx.name
    displayName := docInfo.1.name
    position := { file := m.path, line := ctx.line + m.offset }
    modelPath := m.path
    isLiteral := (litInfoOf ctx.content).1
    isFragment := ctx.frag
    content := some ctx.content
    isDoxygenNodoc := docInfo.1.isDoxygenNodoc
    isDoxygenInline := docInfo.1.isDoxygenInline
    cssClass := docInfo.1.cssClass, importance := docInfo.1.importance
    documentation := docInfo.1.documentation }

/-- `LexerRuleLoader.visitLexerRuleSpec` (impl.py lines 360-389): build
the rule value from the visited content and the extracted documentation,
register it under its name, and — when the content is a `Literal` node —
additionally under the literal text. -/
def visitLexerRuleSpec (st : CacheState) (m : ModelData) (ctx : LexerSpecCtx) :
    CacheState × ModelData :=
  let docInfo := load_docs m.path m.offset ctx.docs
  let st := { st with diagnostics := st.diagnostics ++ docInfo.2 }
  let litInfo := litInfoOf ctx.content
  let rule := builtLexerRule m ctx
  let m := m.setLexerRule rule.name rule
  let m := if litInfo.1 then m.setLexerRule litInfo.2 rule else m
  (st, m)

/-- `ParserRuleLoader.visitParserRuleSpec` (impl.py lines 471-487). -/
def visitParserRuleSpec (st : CacheState) (m : ModelData) (ctx : ParserSpecCtx) :
    CacheState × ModelData :=
  let docInfo := load_docs m.path m.offset ctx.docs
  let st := { st with diagnostics := st.diagnostics ++ docInfo.2 }
  let rule : ParserRuleData :=
    { name := ctx.name
      displayName := docInfo.1.name
      position := { file := m.path, line := ctx.line + m.offset }
      modelPath := m.path
      content := some ctx.content
      isDoxygenNodoc := docInfo.1.isDoxygenNodoc
      isDoxygenInline := docInfo.1.isDoxygenInline
      cssClass := docInfo.1.cssClass, importance := docInfo.1.importance
      documentation := docInfo.1.documentation }
  (st, m.setParserRule rule.name rule)

/-- The `LexerRule` constructed for one name of a `tokens {...}` block
(impl.py lines 184-201).  `css_class` and `importance` are not passed by
the source; modelled from the spec as their defaults (empty / 1). -/
def implicitTokenRule (m : ModelData) (d : String × Int) : LexerRuleData :=
  { name := d.1
    displayName := none
    position := { file := m.path, line := d.2 + m.offset }
    modelPath := m.path
    isLiteral := false
    isFragment := false
    content := none
    isDoxygenNodoc := true
    isDoxygenInline := true
    cssClass := "", importance := 1
    documentation := "" }

/-- `MetaLoader.add_import` (impl.py lines 159-164).  `load` stands for
the bound `self._cache.from_file`; the basedir is
`os.path.dirname(self._model.get_path())` as computed in
`MetaLoader.__init__`.  The `position` parameter of the source is unused
there as well. -/
def add_import (load : CacheState → String → CacheState × ModelData)
    (env : Env) (st : CacheState) (m : ModelData) (name : String)
    (_pos : Position) : CacheState × ModelData :=
  if m.inMemory then
    ({ st with diagnostics :=
        st.diagnostics ++ ["imports are not allowed for in-memory grammars"] }, m)
  else
    let r := load st (env.joinPath (env.dirname m.path) (name ++ ".g4"))
    (r.1, m.addImport r.2)

/-- The `MetaLoader` dispatch (impl.py lines 175-201): `visitOption`
requests an import only for the `tokenVocab` option, `visitDelegateGrammar`
always does, `visitTokensSpec` registers one implicit lexer rule per
listed name. -/
def metaVisit (load : CacheState → String → CacheState × ModelData)
    (env : Env) (st : CacheState) (m : ModelData) :
    MetaDecl → CacheState × ModelData
  | .option name value line =>
    if name = "tokenVocab" then
      add_import load env st m value { file := m.path, line := line + m.offset }
    else (st, m)
  | .delegate value line =>
    add_import load env st m value { file := m.path, line := line + m.offset }
  | .tokensSpec defs =>
    (st, defs.foldl (fun m d => m.setLexerRule d.1 (implicitTokenRule m d)) m)

/-- The meta pass (`MetaLoader(model, self).visit(tree)`): one traversal
over the prequel declarations. -/
def metaLoaderRun (load : CacheState → String → CacheState × ModelData)
    (env : Env) (st : CacheState) (m : ModelData) (ds : List MetaDecl) :
    CacheState × ModelData :=
  ds.foldl (fun p d => metaVisit load env p.1 p.2 d) (st, m)

/-- The lexer-rule pass (`LexerRuleLoader(model).visit(tree)`). -/
def lexerRuleLoaderRun (st : CacheState) (m : ModelData)
    (specs : List LexerSpecCtx) : CacheState × ModelData :=
  specs.foldl (fun p ctx => visitLexerRuleSpec p.1 p.2 ctx) (st, m)

/-- The parser-rule pass (`ParserRuleLoader(model).visit(tree)`). -/
def parserRuleLoaderRun (st : CacheState) (m : ModelData)
    (specs : List ParserSpecCtx) : CacheState × ModelData :=
  specs.foldl (fun p ctx => visitParserRuleSpec p.1 p.2 ctx) (st, m)

/-- `ModelCacheImpl._do_load` (impl.py lines 74-98): run the external
parser (counted, with one diagnostic per reported syntax error), and if no
syntax error was reported, run the meta pass and the two rule loaders over
the tree; otherwise return the still-empty model. -/
def do_load (load : CacheState → String → CacheState × ModelData) (env : Env)
    (st : CacheState) (text path : String) (offset : Int) (inMemory : Bool) :
    CacheState × ModelData :=
  let outcome := env.parse text
  let st := { st with
    parseCount := st.parseCount + 1
    diagnostics := st.diagnostics
      ++ List.replicate outcome.numErrors (path ++ ": WARNING: syntax error") }
  let model := freshModel path offset inMemory
  if outcome.numErrors ≠ 0 then (st, model)
  else
    let r1 := metaLoaderRun load env st model outcome.tree.metaDecls
    let r2 := lexerRuleLoaderRun r1.1 r1.2 outcome.tree.lexerSpecs
    let r3 := parserRuleLoaderRun r2.1 r2.2 outcome.tree.parserSpecs
    (r3.1, r3.2)

/-- `ModelCacheImpl.from_file` (impl.py lines 46-65).  The
`Union[str, Tuple[str, int]]` argument is represented as the (path,
offset) pair, offset 0 standing for the plain-string form.  The `fuel`
parameter bounds the recursion depth through imports: the source has no
cycle guard and recurses unboundedly on cyclic imports (spec section 9);
with fuel 0 the load degenerates to an uncached empty model. -/
def from_file (env : Env) : Nat → CacheState → String → Int → CacheState × ModelData
  | 0, st, path, _ => (st, freshModel path 0 false)
  | fuel + 1, st, path, offset =>
    let path := env.abspath (env.normpath path)
    match alGet st.loaded path with
    | some m => (st, m)
    | none =>
      if env.pathExists path then
        let r := do_load (fun st p => from_file env fuel st p 0) env st
          (env.readFile path) path offset false
        ({ r.1 with loaded := alSet r.1.loaded path r.2 }, r.2)
      else
        let st := { st with diagnostics :=
          st.diagnostics ++ ["unable to load " ++ path ++ ": file not found"] }
        let m := freshModel path offset false
        ({ st with loaded := alSet st.loaded path m }, m)

/-- `ModelCacheImpl.from_text` (impl.py lines 67-72): the same pipeline,
never memoized, with the in-memory flag set. -/
def from_text (env : Env) (fuel : Nat) (st : CacheState) (text : String)
    (path : String) (offset : Int) : CacheState × ModelData :=
  do_load (fun st p => from_file env fuel st p 0) env st text path offset true

/-! ## Concrete sample data (used to instantiate the theorems below) -/

/-- A parse tree with no declarations at all. -/
def emptyTree : GrammarTree := { metaDecls := [], lexerSpecs := [], parserSpecs := [] }

/-- A sample external environment: an identity path algebra, one existing
file, and a parser that reports one syntax error for the text
`"has-error"` and a single `tokenVocab = V` option for `"has-vocab"`. -/
def sampleEnv : Env :=
  { normpath := fun p => p
    abspath := fun p => p
    dirname := fun _ => "/d"
    joinPath := fun a b => a ++ "/" ++ b
    pathExists := fun p => p = "/d/V.g4"
    readFile := fun _ => "grammar V;"
    parse := fun t =>
      if t = "has-error" then { numErrors := 1, tree := emptyTree }
      else if t = "has-vocab" then
        { numErrors := 0
          tree := { metaDecls := [MetaDecl.option "tokenVocab" "V" 1]
                    lexerSpecs := [], parserSpecs := [] } }
      else { numErrors := 0, tree := emptyTree } }

/-- A fresh cache. -/
def emptyCache : CacheState := { loaded := [], diagnostics := [], parseCount := 0 }

/-- A sample lexer rule value. -/
def sampleLexRule : LexerRuleData :=
  { name := "A", displayName := none, position := { file := "f", line := 1 }
    modelPath := "f", isLiteral := false, isFragment := false, content := none
    isDoxygenNodoc := false, isDoxygenInline := false
    cssClass := "", importance := 1, documentation := "" }

/-- A sample parser rule value. -/
def sampleParserRule : ParserRuleData :=
  { name := "A", displayName := none, position := { file := "f", line := 2 }
    modelPath := "f", content := none
    isDoxygenNodoc := false, isDoxygenInline := false
    cssClass := "", importance := 1, documentation := "" }

/-- A model whose name "A" is bound in both rule maps. -/
def sampleModel : ModelData :=
  .mk "f" 0 false [("A", sampleLexRule)] [("A", sampleParserRule)] []

/-- A sample lexer-rule context whose body is the literal `'foo'`. -/
def sampleLitCtx : LexerSpecCtx :=
  { name := "FOO", line := 1, docs := [], frag := false
    content := Rule.literal "'foo'" }

/-- A sample lexer-rule context whose body is not a literal. -/
def sampleRefCtx : LexerSpecCtx :=
  { name := "BAR", line := 2, docs := [], frag := false
    content := Rule.reference "FOO" }

/-! ## Helper lemmas -/

theorem alGet_alSet_self {α : Type} (l : List (String × α)) (k : String) (v : α) :
    alGet (alSet l k v) k = some v := by
  induction l with
  | nil => simp [alSet, alGet]
  | cons p rest ih =>
    by_cases h : p.1 = k
    · simp [alSet, alGet, h]
    · simp [alSet, alGet, h, ih]

theorem alGet_alSet_other {α : Type} (l : List (String × α)) (k k' : String) (v : α)
    (h : k ≠ k') : alGet (alSet l k v) k' = alGet l k' := by
  induction l with
  | nil => simp [alSet, alGet, h]
  | cons p rest ih =>
    by_cases hp : p.1 = k
    · simp [alSet, alGet, hp, h]
    · simp [alSet, alGet, hp, ih]

theorem setLexerRule_lexerRules (m : ModelData) (n : String) (r : LexerRuleData) :
    (m.setLexerRule n r).lexerRules = alSet m.lexerRules n r := by
  cases m; rfl

theorem setLexerRule_parserRules (m : ModelData) (n : String) (r : LexerRuleData) :
    (m.setLexerRule n r).parserRules = m.parserRules := by
  cases m; rfl

theorem addImport_imports (m x : ModelData) :
    (m.addImport x).imports = m.imports ++ [x] := by
  cases m; rfl

/-! ## Claim theorems -/

/-- C8: suffix application. For a non-`Empty` element, `?` wraps in
`Maybe` unless the element is already a `Maybe` (in which case it is
returned unchanged), `+` wraps in `OnePlus`, `*` in `ZeroPlus`, and the
absence of a suffix is a pass-through; an `Empty` element is returned
unchanged by every suffix. -/
theorem c8_suffix_application :
    (∀ e : Rule, isEmptyNode e = false → isMaybeNode e = false →
      wrap_suffix e (some "?") = Rule.maybe e) ∧
    (∀ e : Rule, isMaybeNode e = true → wrap_suffix e (some "?") = e) ∧
    (∀ e : Rule, isEmptyNode e = false → wrap_suffix e (some "+") = Rule.onePlus e) ∧
    (∀ e : Rule, isEmptyNode e = false → wrap_suffix e (some "*") = Rule.zeroPlus e) ∧
    (∀ e : Rule, wrap_suffix e none = e) ∧
    (∀ s : Option String, wrap_suffix Rule.empty s = Rule.empty) := by
  have hq : strStartsWith "?" "?" = true := by decide
  have hp : strStartsWith "+" "?" = false := by decide
  have hpp : strStartsWith "+" "+" = true := by decide
  have hs : strStartsWith "*" "?" = false := by decide
  have hsp : strStartsWith "*" "+" = false := by decide
  have hss : strStartsWith "*" "*" = true := by decide
  refine ⟨?_, ?_, ?_, ?_, ?_, ?_⟩
  · intro e h1 h2; simp [wrap_suffix, h1, h2, hq]
  · intro e h
    have h1 : isEmptyNode e = false := by
      cases e <;> simp_all [isMaybeNode, isEmptyNode]
    simp [wrap_suffix, h1, h, hq]
  · intro e h1; simp [wrap_suffix, h1, hp, hpp]
  · intro e h1; simp [wrap_suffix, h1, hs, hsp, hss]
  · intro e; simp [wrap_suffix]
  · intro s; simp [wrap_suffix, isEmptyNode]

/-- C8 witness: the laws at concrete elements. -/
theorem c8_suffix_application_witness :
    wrap_suffix (Rule.literal "'x'") (some "?") = Rule.maybe (Rule.literal "'x'") ∧
    wrap_suffix (Rule.maybe (Rule.literal "'x'")) (some "?") =
      Rule.maybe (Rule.literal "'x'") ∧
    wrap_suffix (Rule.literal "'x'") (some "+") = Rule.onePlus (Rule.literal "'x'") ∧
    wrap_suffix (Rule.literal "'x'") (some "*") = Rule.zeroPlus (Rule.literal "'x'") ∧
    wrap_suffix Rule.empty (some "+") = Rule.empty :=
  ⟨c8_suffix_application.1 _ rfl rfl,
   c8_suffix_application.2.1 _ rfl,
   c8_suffix_application.2.2.1 _ rfl,
   c8_suffix_application.2.2.2.1 _ rfl,
   c8_suffix_application.2.2.2.2.2 _⟩

/-- C10: `lookup_local` returns the lexer rule bound under the name
whenever one exists — also when a parser rule shares the name — returns
the parser rule when only a parser rule is bound, and returns `none`
(rather than raising) when neither map binds the name. -/
theorem c10_lookup_local_precedence :
    (∀ (m : ModelData) (n : String) (r : LexerRuleData),
      alGet m.lexerRules n = some r → m.lookup_local n = some (Sum.inl r)) ∧
    (∀ (m : ModelData) (n : String) (r : LexerRuleData) (p : ParserRuleData),
      alGet m.lexerRules n = some r → alGet m.parserRules n = some p →
      m.lookup_local n = some (Sum.inl r)) ∧
    (∀ (m : ModelData) (n : String) (p : ParserRuleData),
      alGet m.lexerRules n = none → alGet m.parserRules n = some p →
      m.lookup_local n = some (Sum.inr p)) ∧
    (∀ (m : ModelData) (n : String),
      alGet m.lexerRules n = none → alGet m.parserRules n = none →
      m.lookup_local n = none) := by
  refine ⟨?_, ?_, ?_, ?_⟩ <;> intros <;> simp_all [ModelData.lookup_local]

/-- C10 witness: on `sampleModel` the name "A" is bound in both maps and
resolves to the lexer rule; an unbound name resolves to `none`. -/
theorem c10_lookup_local_precedence_witness :
    sampleModel.lookup_local "A" = some (Sum.inl sampleLexRule) ∧
    sampleModel.lookup_local "B" = none :=
  ⟨c10_lookup_local_precedence.2.1 sampleModel "A" sampleLexRule sampleParserRule rfl rfl,
   c10_lookup_local_precedence.2.2.2 sampleModel "B" rfl rfl⟩

theorem lookup_after_double_set (m : ModelData) (n t : String) (r : LexerRuleData) :
    ((m.setLexerRule n r).setLexerRule t r).lookup_local n = some (Sum.inl r) ∧
    ((m.setLexerRule n r).setLexerRule t r).lookup_local t = some (Sum.inl r) := by
  have h1 : ((m.setLexerRule n r).setLexerRule t r).lexerRules =
      alSet (alSet m.lexerRules n r) t r := by
    rw [setLexerRule_lexerRules, setLexerRule_lexerRules]
  constructor
  · by_cases h : t = n
    · subst h; simp [ModelData.lookup_local, h1, alGet_alSet_self]
    · simp [ModelData.lookup_local, h1, alGet_alSet_other _ _ _ _ h, alGet_alSet_self]
  · simp [ModelData.lookup_local, h1, alGet_alSet_self]

/-- C9: a lexer rule whose built content tree is a `Literal` node is
registered under both its rule name and its literal text, and both
lookups return the same rule value; a rule whose content is not a
`Literal` — including the empty-string literal, which
`visitTerminalLit` builds to `Empty` — is registered under its name
only. -/
theorem c9_literal_dual_indexing :
    (∀ (st : CacheState) (m : ModelData) (ctx : LexerSpecCtx) (t : String),
      ctx.content = Rule.literal t →
      (visitLexerRuleSpec st m ctx).2.lookup_local ctx.name =
        some (Sum.inl (builtLexerRule m ctx)) ∧
      (visitLexerRuleSpec st m ctx).2.lookup_local t =
        some (Sum.inl (builtLexerRule m ctx))) ∧
    (∀ (st : CacheState) (m : ModelData) (ctx : LexerSpecCtx),
      isLiteralNode ctx.content = false →
      (visitLexerRuleSpec st m ctx).2.lexerRules =
        alSet m.lexerRules ctx.name (builtLexerRule m ctx) ∧
      (visitLexerRuleSpec st m ctx).2.parserRules = m.parserRules) ∧
    visitTerminalLit "''" = Rule.empty ∧
    (∀ s : String, s ≠ "''" → visitTerminalLit s = Rule.literal s) := by
  have hname : ∀ (m : ModelData) (ctx : LexerSpecCtx),
      (builtLexerRule m ctx).name = ctx.name := fun _ _ => rfl
  refine ⟨?_, ?_, by simp [visitTerminalLit], ?_⟩
  · intro st m ctx t h
    have hn := lookup_after_double_set m ctx.name t (builtLexerRule m ctx)
    simp only [visitLexerRuleSpec, litInfoOf, h, hname]
    exact ⟨hn.1, hn.2⟩
  · intro st m ctx h
    have hlit : (litInfoOf ctx.content).1 = false := by
      cases hc : ctx.content <;> rw [hc] at h <;>
        simp_all [isLiteralNode, litInfoOf]
    simp only [visitLexerRuleSpec, hlit, hname]
    simp [setLexerRule_lexerRules, setLexerRule_parserRules]
  · intro s h; simp [visitTerminalLit, h]

/-- C9 witness: the dual indexing at `FOO: 'foo';` and the name-only
registration at a reference-bodied rule. -/
theorem c9_literal_dual_indexing_witness :
    ((visitLexerRuleSpec emptyCache (freshModel "f" 0 false) sampleLitCtx).2.lookup_local
        "FOO" = some (Sum.inl (builtLexerRule (freshModel "f" 0 false) sampleLitCtx)) ∧
     (visitLexerRuleSpec emptyCache (freshModel "f" 0 false) sampleLitCtx).2.lookup_local
        "'foo'" = some (Sum.inl (builtLexerRule (freshModel "f" 0 false) sampleLitCtx))) ∧
    ((visitLexerRuleSpec emptyCache (freshModel "f" 0 false) sampleRefCtx).2.lexerRules =
        alSet (freshModel "f" 0 false).lexerRules "BAR"
          (builtLexerRule (freshModel "f" 0 false) sampleRefCtx) ∧
     (visitLexerRuleSpec emptyCache (freshModel "f" 0 false) sampleRefCtx).2.parserRules =
        (freshModel "f" 0 false).parserRules) ∧
    visitTerminalLit "'x'" = Rule.literal "'x'" :=
  ⟨c9_literal_dual_indexing.1 emptyCache (freshModel "f" 0 false) sampleLitCtx "'foo'" rfl,
   c9_literal_dual_indexing.2.1 emptyCache (freshModel "f" 0 false) sampleRefCtx rfl,
   c9_literal_dual_indexing.2.2.2 "'x'" (by decide)⟩

theorem altStep_plain (st : Bool × List Rule) (x : Rule)
    (h1 : isMaybeNode x = false) (h2 : isAlternativeNode x = false)
    (h3 : isEmptyNode x = false) :
    altAccumStep st x = (st.1, st.2 ++ [x]) := by
  cases x <;> simp_all [altAccumStep, isMaybeNode, isAlternativeNode, isEmptyNode]

theorem altStep_empty (st : Bool × List Rule) :
    altAccumStep st Rule.empty = (true, st.2) := rfl

theorem altStep_maybe_plain (st : Bool × List Rule) (b : Rule)
    (h2 : isAlternativeNode b = false) (h3 : isEmptyNode b = false) :
    altAccumStep st (Rule.maybe b) = (true, st.2 ++ [b]) := by
  cases b <;> simp_all [altAccumStep, isAlternativeNode, isEmptyNode]

theorem altStep_alt (st : Bool × List Rule) (cs : List Rule) :
    altAccumStep st (Rule.alternative cs) = (st.1, st.2 ++ cs) := rfl

/-- C6: the alternative combinator.  `[a, Empty]` yields `Maybe(a)`,
`[a, Maybe(b)]` yields `Maybe(Alternative(a, b))` (for sub-results in
general position: not themselves `Empty`, `Maybe` or `Alternative`, which
the unwrap/flatten steps would absorb first), `[Empty]` yields `Empty`;
and in general, writing `(hasEmpty, alts)` for the state after the
unwrap/flatten loop: zero remaining children yield `Empty`, a single
remaining child yields `Maybe` of it exactly when an empty alternative
was recorded and the child itself otherwise, and two or more children
yield `Alternative(alts)`, wrapped in `Maybe` exactly when an empty
alternative was recorded. -/
theorem c6_alternative_combinator :
    (∀ a : Rule, isMaybeNode a = false → isAlternativeNode a = false →
      isEmptyNode a = false → make_alt_rule [a, Rule.empty] = Rule.maybe a) ∧
    (∀ a b : Rule, isMaybeNode a = false → isAlternativeNode a = false →
      isEmptyNode a = false → isAlternativeNode b = false → isEmptyNode b = false →
      make_alt_rule [a, Rule.maybe b] = Rule.maybe (Rule.alternative [a, b])) ∧
    make_alt_rule [Rule.empty] = Rule.empty ∧
    (∀ content : List Rule, (content.foldl altAccumStep (false, [])).2 = [] →
      make_alt_rule content = Rule.empty) ∧
    (∀ (content : List Rule) (a : Rule),
      content.foldl altAccumStep (false, []) = (true, [a]) →
      make_alt_rule content = Rule.maybe a) ∧
    (∀ (content : List Rule) (a : Rule),
      content.foldl altAccumStep (false, []) = (false, [a]) →
      make_alt_rule content = a) ∧
    (∀ (content : List Rule) (hE : Bool) (alts : List Rule),
      content.foldl altAccumStep (false, []) = (hE, alts) → 2 ≤ alts.length →
      make_alt_rule content =
        if hE then Rule.maybe (Rule.alternative alts) else Rule.alternative alts) := by
  refine ⟨?_, ?_, by rfl, ?_, ?_, ?_, ?_⟩
  · intro a h1 h2 h3
    simp [make_alt_rule, List.foldl, altStep_plain _ _ h1 h2 h3, altStep_empty]
  · intro a b h1 h2 h3 hb2 hb3
    simp [make_alt_rule, List.foldl, altStep_plain _ _ h1 h2 h3,
      altStep_maybe_plain _ _ hb2 hb3]
  · intro content h
    simp [make_alt_rule, h]
  · intro content a h
    simp [make_alt_rule, h]
  · intro content a h
    simp [make_alt_rule, h]
  · intro content hE alts h hlen
    cases alts with
    | nil => simp at hlen
    | cons x rest =>
      cases rest with
      | nil => simp at hlen
      | cons y t => simp [make_alt_rule, h]

/-- C6 witness: the three absorption laws at concrete literals. -/
theorem c6_alternative_combinator_witness :
    make_alt_rule [Rule.literal "'a'", Rule.empty] = Rule.maybe (Rule.literal "'a'") ∧
    make_alt_rule [Rule.literal "'a'", Rule.maybe (Rule.literal "'b'")] =
      Rule.maybe (Rule.alternative [Rule.literal "'a'", Rule.literal "'b'"]) ∧
    make_alt_rule [Rule.reference "x"] = Rule.reference "x" :=
  ⟨c6_alternative_combinator.1 _ rfl rfl rfl,
   c6_alternative_combinator.2.1 _ _ rfl rfl rfl rfl rfl,
   c6_alternative_combinator.2.2.2.2.2.1 [Rule.reference "x"] (Rule.reference "x") rfl⟩

/-- C5: when the external parser reports at least one syntax error, the
load pipeline still returns a Model, that Model has no lexer rules, no
parser rules and no imports, and the pipeline state shows only the parse
itself (the meta pass and the two rule builders did not run); no error
propagates (the function is total). -/
theorem c5_syntax_error_empty_model
    (load : CacheState → String → CacheState × ModelData) (env : Env)
    (st : CacheState) (text path : String) (offset : Int) (inMemory : Bool)
    (herr : 1 ≤ (env.parse text).numErrors) :
    (do_load load env st text path offset inMemory).2 = freshModel path offset inMemory ∧
    (do_load load env st text path offset inMemory).2.lexerRules = [] ∧
    (do_load load env st text path offset inMemory).2.parserRules = [] ∧
    (do_load load env st text path offset inMemory).2.imports = [] ∧
    (do_load load env st text path offset inMemory).1 =
      { st with
        parseCount := st.parseCount + 1
        diagnostics := st.diagnostics ++ List.replicate (env.parse text).numErrors
          (path ++ ": WARNING: syntax error") } := by
  have hne : (env.parse text).numErrors ≠ 0 := by omega
  simp [do_load, hne, freshModel, ModelData.lexerRules, ModelData.parserRules,
    ModelData.imports]

/-- C5 witness: the sample environment's `"has-error"` text. -/
theorem c5_syntax_error_empty_model_witness :
    (do_load (fun s _ => (s, freshModel "x" 0 false)) sampleEnv emptyCache
        "has-error" "p" 0 false).2 = freshModel "p" 0 false ∧
    (do_load (fun s _ => (s, freshModel "x" 0 false)) sampleEnv emptyCache
        "has-error" "p" 0 false).2.lexerRules = [] ∧
    (do_load (fun s _ => (s, freshModel "x" 0 false)) sampleEnv emptyCache
        "has-error" "p" 0 false).2.parserRules = [] ∧
    (do_load (fun s _ => (s, freshModel "x" 0 false)) sampleEnv emptyCache
        "has-error" "p" 0 false).2.imports = [] ∧
    (do_load (fun s _ => (s, freshModel "x" 0 false)) sampleEnv emptyCache
        "has-error" "p" 0 false).1 =
      { emptyCache with
        parseCount := emptyCache.parseCount + 1
        diagnostics := emptyCache.diagnostics ++ List.replicate
          (sampleEnv.parse "has-error").numErrors ("p" ++ ": WARNING: syntax error") } :=
  c5_syntax_error_empty_model (fun s _ => (s, freshModel "x" 0 false)) sampleEnv
    emptyCache "has-error" "p" 0 false (by decide)

/-- C4: loading a path that does not exist does not raise: it returns a
Model with no rules and no imports, marked non-in-memory, memoizes that
placeholder under the normalized path, and reports exactly one
diagnostic. -/
theorem c4_missing_file_resilience (env : Env) (fuel : Nat) (st : CacheState)
    (p : String) (o : Int)
    (hmiss : env.pathExists (env.abspath (env.normpath p)) = false)
    (hfresh : alGet st.loaded (env.abspath (env.normpath p)) = none) :
    (from_file env (fuel + 1) st p o).2.lexerRules = [] ∧
    (from_file env (fuel + 1) st p o).2.parserRules = [] ∧
    (from_file env (fuel + 1) st p o).2.imports = [] ∧
    (from_file env (fuel + 1) st p o).2.inMemory = false ∧
    alGet (from_file env (fuel + 1) st p o).1.loaded (env.abspath (env.normpath p)) =
      some (from_file env (fuel + 1) st p o).2 ∧
    (from_file env (fuel + 1) st p o).1.diagnostics =
      st.diagnostics ++
        ["unable to load " ++ env.abspath (env.normpath p) ++ ": file not found"] ∧
    (from_file env (fuel + 1) st p o).1.parseCount = st.parseCount := by
  simp [from_file, hmiss, hfresh, freshModel, ModelData.lexerRules,
    ModelData.parserRules, ModelData.imports, ModelData.inMemory, alGet_alSet_self]

/-- C4 witness: a non-existing path in the sample environment. -/
theorem c4_missing_file_resilience_witness :
    (from_file sampleEnv 1 emptyCache "/missing.g4" 0).2.lexerRules = [] ∧
    (from_file sampleEnv 1 emptyCache "/missing.g4" 0).2.parserRules = [] ∧
    (from_file sampleEnv 1 emptyCache "/missing.g4" 0).2.imports = [] ∧
    (from_file sampleEnv 1 emptyCache "/missing.g4" 0).2.inMemory = false ∧
    alGet (from_file sampleEnv 1 emptyCache "/missing.g4" 0).1.loaded
      (sampleEnv.abspath (sampleEnv.normpath "/missing.g4")) =
      some (from_file sampleEnv 1 emptyCache "/missing.g4" 0).2 ∧
    (from_file sampleEnv 1 emptyCache "/missing.g4" 0).1.diagnostics =
      emptyCache.diagnostics ++
        ["unable to load " ++ sampleEnv.abspath (sampleEnv.normpath "/missing.g4")
          ++ ": file not found"] ∧
    (from_file sampleEnv 1 emptyCache "/missing.g4" 0).1.parseCount =
      emptyCache.parseCount :=
  c4_missing_file_resilience sampleEnv 0 emptyCache "/missing.g4" 0 (by decide) rfl

/-- After any positive-fuel `from_file` call, the normalized path is bound
in the memoization map to exactly the returned model. -/
theorem from_file_memoizes (env : Env) (fuel : Nat) (st : CacheState) (p : String)
    (o : Int) :
    alGet (from_file env (fuel + 1) st p o).1.loaded (env.abspath (env.normpath p)) =
      some (from_file env (fuel + 1) st p o).2 := by
  cases h : alGet st.loaded (env.abspath (env.normpath p)) with
  | some m => simp [from_file, h]
  | none =>
    by_cases he : env.pathExists (env.abspath (env.normpath p)) <;>
      simp [from_file, h, he, alGet_alSet_self]

/-- C2: two `from_file` calls whose paths normalize to the same absolute
path return the same Model — the second call returns exactly the stored
result of the first — and the second call leaves the cache state (in
particular the parse counter) untouched: no re-parse occurs. -/
theorem c2_cache_memoization (env : Env) (fuel1 fuel2 : Nat) (st : CacheState)
    (p1 p2 : String) (o1 o2 : Int)
    (hnorm : env.abspath (env.normpath p1) = env.abspath (env.normpath p2)) :
    (from_file env (fuel2 + 1) (from_file env (fuel1 + 1) st p1 o1).1 p2 o2).2 =
      (from_file env (fuel1 + 1) st p1 o1).2 ∧
    (from_file env (fuel2 + 1) (from_file env (fuel1 + 1) st p1 o1).1 p2 o2).1 =
      (from_file env (fuel1 + 1) st p1 o1).1 ∧
    (from_file env (fuel2 + 1) (from_file env (fuel1 + 1) st p1 o1).1 p2 o2).1.parseCount =
      (from_file env (fuel1 + 1) st p1 o1).1.parseCount := by
  have hc := from_file_memoizes env fuel1 st p1 o1
  rw [hnorm] at hc
  refine ⟨?_, ?_, ?_⟩ <;>
    conv_lhs => rw [from_file]
  all_goals simp [hc]

/-- C2 witness: loading the same path twice in the sample environment. -/
theorem c2_cache_memoization_witness :
    (from_file sampleEnv 1 (from_file sampleEnv 1 emptyCache "/d/V.g4" 0).1
        "/d/V.g4" 0).2 = (from_file sampleEnv 1 emptyCache "/d/V.g4" 0).2 ∧
    (from_file sampleEnv 1 (from_file sampleEnv 1 emptyCache "/d/V.g4" 0).1
        "/d/V.g4" 0).1 = (from_file sampleEnv 1 emptyCache "/d/V.g4" 0).1 ∧
    (from_file sampleEnv 1 (from_file sampleEnv 1 emptyCache "/d/V.g4" 0).1
        "/d/V.g4" 0).1.parseCount =
      (from_file sampleEnv 1 emptyCache "/d/V.g4" 0).1.parseCount :=
  c2_cache_memoization sampleEnv 0 0 emptyCache "/d/V.g4" "/d/V.g4" 0 0 rfl

/-- C3: during the meta pass of a file-backed model, a `tokenVocab`
option with value `V` and a delegate-grammar declaration naming `V` both
trigger a cache load of `V + ".g4"` resolved against the loading file's
directory and append the returned Model to the loading Model's imports
(threading the cache state of that load); on an in-memory model such a
request instead produces exactly one diagnostic and changes
nothing else, and loading text holding a single `tokenVocab` option via
`from_text` yields a Model with zero imports and exactly one diagnostic. -/
theorem c3_import_discovery :
    (∀ (env : Env) (fuel : Nat) (st : CacheState) (m : ModelData) (V : String)
        (line : Int), m.inMemory = false →
      (metaVisit (fun s q => from_file env fuel s q 0) env st m
          (MetaDecl.option "tokenVocab" V line)).2.imports =
        m.imports ++
          [(from_file env fuel st (env.joinPath (env.dirname m.path) (V ++ ".g4")) 0).2] ∧
      (metaVisit (fun s q => from_file env fuel s q 0) env st m
          (MetaDecl.option "tokenVocab" V line)).1 =
        (from_file env fuel st (env.joinPath (env.dirname m.path) (V ++ ".g4")) 0).1 ∧
      (metaVisit (fun s q => from_file env fuel s q 0) env st m
          (MetaDecl.delegate V line)).2.imports =
        m.imports ++
          [(from_file env fuel st (env.joinPath (env.dirname m.path) (V ++ ".g4")) 0).2] ∧
      (metaVisit (fun s q => from_file env fuel s q 0) env st m
          (MetaDecl.delegate V line)).1 =
        (from_file env fuel st (env.joinPath (env.dirname m.path) (V ++ ".g4")) 0).1) ∧
    (∀ (load : CacheState → String → CacheState × ModelData) (env : Env)
        (st : CacheState) (m : ModelData) (name : String) (pos : Position),
      m.inMemory = true →
      (add_import load env st m name pos).2 = m ∧
      (add_import load env st m name pos).1.diagnostics =
        st.diagnostics ++ ["imports are not allowed for in-memory grammars"] ∧
      (add_import load env st m name pos).1.loaded = st.loaded ∧
      (add_import load env st m name pos).1.parseCount = st.parseCount) ∧
    (∀ (env : Env) (fuel : Nat) (st : CacheState) (text path : String) (offset : Int)
        (V : String) (line : Int),
      (env.parse text).numErrors = 0 →
      (env.parse text).tree.metaDecls = [MetaDecl.option "tokenVocab" V line] →
      (env.parse text).tree.lexerSpecs = [] →
      (env.parse text).tree.parserSpecs = [] →
      (from_text env fuel st text path offset).2.imports = [] ∧
      (from_text env fuel st text path offset).1.diagnostics.length =
        st.diagnostics.length + 1) := by
  refine ⟨?_, ?_, ?_⟩
  · intro env fuel st m V line h
    simp [metaVisit, add_import, h, addImport_imports]
  · intro load env st m name pos h
    simp [add_import, h]
  · intro env fuel st text path offset V line h0 h1 h2 h3
    simp [from_text, do_load, h0, h1, h2, h3, metaLoaderRun, metaVisit, add_import,
      lexerRuleLoaderRun, parserRuleLoaderRun, freshModel, ModelData.inMemory,
      ModelData.imports]

/-- C3 witness: the sample environment's `"has-vocab"` text and a sample
file-backed / in-memory pair of models. -/
theorem c3_import_discovery_witness :
    (metaVisit (fun s q => from_file sampleEnv 1 s q 0) sampleEnv emptyCache
        (freshModel "/d/a.g4" 0 false) (MetaDecl.option "tokenVocab" "V" 1)).2.imports =
      (freshModel "/d/a.g4" 0 false).imports ++
        [(from_file sampleEnv 1 emptyCache
            (sampleEnv.joinPath (sampleEnv.dirname (freshModel "/d/a.g4" 0 false).path)
              ("V" ++ ".g4")) 0).2] ∧
    (add_import (fun s _ => (s, freshModel "x" 0 false)) sampleEnv emptyCache
        (freshModel "t" 0 true) "V" { file := "t", line := 1 }).2 =
      freshModel "t" 0 true ∧
    (from_text sampleEnv 1 emptyCache "has-vocab" "<in-memory>" 0).2.imports = [] ∧
    (from_text sampleEnv 1 emptyCache "has-vocab" "<in-memory>" 0).1.diagnostics.length =
      emptyCache.diagnostics.length + 1 :=
  ⟨(c3_import_discovery.1 sampleEnv 1 emptyCache (freshModel "/d/a.g4" 0 false)
      "V" 1 rfl).1,
   (c3_import_discovery.2.1 (fun s _ => (s, freshModel "x" 0 false)) sampleEnv emptyCache
      (freshModel "t" 0 true) "V" { file := "t", line := 1 } rfl).1,
   (c3_import_discovery.2.2 sampleEnv 1 emptyCache "has-vocab" "<in-memory>" 0 "V" 1
      rfl rfl rfl rfl).1,
   (c3_import_discovery.2.2 sampleEnv 1 emptyCache "has-vocab" "<in-memory>" 0 "V" 1
      rfl rfl rfl rfl).2⟩

theorem wfList_iff (l : List Rule) : wfList l = true ↔ ∀ x ∈ l, wf x = true := by
  induction l with
  | nil => simp [wfList]
  | cons c cs ih => simp [wfList, Bool.and_eq_true, ih]

theorem isEmptyNode_eq (c : Rule) (h : isEmptyNode c = true) : c = Rule.empty := by
  cases c <;> simp_all [isEmptyNode]

theorem isMaybeNode_eq (c : Rule) (h : isMaybeNode c = true) :
    ∃ d, c = Rule.maybe d := by
  cases c <;> simp_all [isMaybeNode]

theorem isAlternativeNode_eq (c : Rule) (h : isAlternativeNode c = true) :
    ∃ cs, c = Rule.alternative cs := by
  cases c <;> simp_all [isAlternativeNode]

theorem wf_maybe_elim (c : Rule) (h : wf (Rule.maybe c) = true) :
    isMaybeNode c = false ∧ wf c = true := by
  simpa [wf, Bool.and_eq_true, Bool.not_eq_true'] using h

theorem wf_alternative_elim (cs : List Rule) (h : wf (Rule.alternative cs) = true) :
    2 ≤ cs.length ∧ (∀ x ∈ cs, isAlternativeNode x = false) ∧
      (∀ x ∈ cs, wf x = true) := by
  simp only [wf, Bool.and_eq_true, decide_eq_true_eq, List.all_eq_true,
    Bool.not_eq_true'] at h
  exact ⟨h.1.1, h.1.2, (wfList_iff cs).mp h.2⟩

theorem wf_sequence_elim (cs : List Rule) (h : wf (Rule.sequence cs) = true) :
    2 ≤ cs.length ∧ (∀ x ∈ cs, isSequenceNode x = false) ∧
      (∀ x ∈ cs, wf x = true) := by
  simp only [wf, Bool.and_eq_true, decide_eq_true_eq, List.all_eq_true,
    Bool.not_eq_true'] at h
  exact ⟨h.1.1, h.1.2, (wfList_iff cs).mp h.2⟩

theorem wf_maybe_intro (c : Rule) (h1 : isMaybeNode c = false) (h2 : wf c = true) :
    wf (Rule.maybe c) = true := by
  simp [wf, h1, h2]

theorem seqStep_plain (acc : List Rule) (e : Rule) (h : isSequenceNode e = false) :
    seqAccumStep acc e = acc ++ [e] := by
  cases e <;> simp_all [seqAccumStep, isSequenceNode]

theorem seqStep_seq (acc cs : List Rule) :
    seqAccumStep acc (Rule.sequence cs) = acc ++ cs := rfl

theorem altStep_maybe_empty (st : Bool × List Rule) :
    altAccumStep st (Rule.maybe Rule.empty) = (true, st.2) := rfl

theorem altStep_maybe_alt (st : Bool × List Rule) (cs : List Rule) :
    altAccumStep st (Rule.maybe (Rule.alternative cs)) = (true, st.2 ++ cs) := rfl

theorem seq_fold_ok (content : List Rule) :
    ∀ acc : List Rule, (∀ x ∈ content, wf x = true) →
    (∀ x ∈ acc, wf x = true ∧ isSequenceNode x = false) →
    (∀ x ∈ content.foldl seqAccumStep acc, wf x = true ∧ isSequenceNode x = false) ∧
    acc.length ≤ (content.foldl seqAccumStep acc).length ∧
    (content ≠ [] → acc.length < (content.foldl seqAccumStep acc).length) := by
  induction content with
  | nil =>
    intro acc h hacc
    exact ⟨by simpa using hacc, by simp, by simp⟩
  | cons e es ih =>
    intro acc h hacc
    rw [List.foldl_cons]
    have hwfe : wf e = true := h e (by simp)
    have hes : ∀ x ∈ es, wf x = true := fun x hx => h x (by simp [hx])
    have hstep : (∀ x ∈ seqAccumStep acc e, wf x = true ∧ isSequenceNode x = false) ∧
        acc.length < (seqAccumStep acc e).length := by
      by_cases hseq : isSequenceNode e = true
      · obtain ⟨cs, rfl⟩ : ∃ cs, e = Rule.sequence cs := by
          cases e <;> simp [isSequenceNode] at hseq
          exact ⟨_, rfl⟩
        obtain ⟨hlen2, hns, hwfs⟩ := wf_sequence_elim cs hwfe
        rw [seqStep_seq]
        constructor
        · intro x hx
          rcases List.mem_append.mp hx with hx | hx
          · exact hacc x hx
          · exact ⟨hwfs x hx, hns x hx⟩
        · simp only [List.length_append]; omega
      · rw [seqStep_plain _ _ (by simpa using hseq)]
        constructor
        · intro x hx
          rcases List.mem_append.mp hx with hx | hx
          · exact hacc x hx
          · simp only [List.mem_singleton] at hx
            subst hx
            exact ⟨hwfe, by simpa using hseq⟩
        · simp
    obtain ⟨h1, h2, _⟩ := ih (seqAccumStep acc e) hes hstep.1
    exact ⟨h1, le_trans (le_of_lt hstep.2) h2,
      fun _ => lt_of_lt_of_le hstep.2 h2⟩

theorem alt_step_ok (b : Bool) (acc : List Rule) (e : Rule) (hwfe : wf e = true)
    (hacc : ∀ x ∈ acc, wf x = true ∧ isAlternativeNode x = false)
    (hmb : ∀ x ∈ acc, isMaybeNode x = true → 2 ≤ acc.length) :
    (∀ x ∈ (altAccumStep (b, acc) e).2, wf x = true ∧ isAlternativeNode x = false) ∧
    (∀ x ∈ (altAccumStep (b, acc) e).2, isMaybeNode x = true →
      2 ≤ (altAccumStep (b, acc) e).2.length) := by
  by_cases hm : isMaybeNode e = true
  · obtain ⟨c, rfl⟩ := isMaybeNode_eq e hm
    obtain ⟨hcm, hcw⟩ := wf_maybe_elim c hwfe
    by_cases hce : isEmptyNode c = true
    · obtain rfl := isEmptyNode_eq c hce
      rw [altStep_maybe_empty]
      exact ⟨hacc, hmb⟩
    · by_cases hca : isAlternativeNode c = true
      · obtain ⟨cs, rfl⟩ := isAlternativeNode_eq c hca
        rw [altStep_maybe_alt]
        obtain ⟨hlen2, hnalt, hwfs⟩ := wf_alternative_elim cs hcw
        constructor
        · intro x hx
          rcases List.mem_append.mp hx with hx | hx
          · exact hacc x hx
          · exact ⟨hwfs x hx, hnalt x hx⟩
        · intro x _ _
          simp only [List.length_append]; omega
      · rw [show altAccumStep (b, acc) (Rule.maybe c) = (true, acc ++ [c]) from
          altStep_maybe_plain _ _ (by simpa using hca) (by simpa using hce)]
        constructor
        · intro x hx
          rcases List.mem_append.mp hx with hx | hx
          · exact hacc x hx
          · simp only [List.mem_singleton] at hx
            subst hx
            exact ⟨hcw, by simpa using hca⟩
        · intro x hx hxm
          simp only [List.length_append, List.length_singleton]
          rcases List.mem_append.mp hx with hx | hx
          · have := hmb x hx hxm; omega
          · simp only [List.mem_singleton] at hx
            subst hx
            rw [hcm] at hxm; cases hxm
  · by_cases hee : isEmptyNode e = true
    · obtain rfl := isEmptyNode_eq e hee
      rw [altStep_empty]
      exact ⟨hacc, hmb⟩
    · by_cases hea : isAlternativeNode e = true
      · obtain ⟨cs, rfl⟩ := isAlternativeNode_eq e hea
        rw [altStep_alt]
        obtain ⟨hlen2, hnalt, hwfs⟩ := wf_alternative_elim cs hwfe
        constructor
        · intro x hx
          rcases List.mem_append.mp hx with hx | hx
          · exact hacc x hx
          · exact ⟨hwfs x hx, hnalt x hx⟩
        · intro x _ _
          simp only [List.length_append]; omega
      · rw [altStep_plain _ _ (by simpa using hm) (by simpa using hea)
          (by simpa using hee)]
        constructor
        · intro x hx
          rcases List.mem_append.mp hx with hx | hx
          · exact hacc x hx
          · simp only [List.mem_singleton] at hx
            subst hx
            exact ⟨hwfe, by simpa using hea⟩
        · intro x hx hxm
          simp only [List.length_append, List.length_singleton]
          rcases List.mem_append.mp hx with hx | hx
          · have := hmb x hx hxm; omega
          · simp only [List.mem_singleton] at hx
            subst hx
            rw [show isMaybeNode x = false by simpa using hm] at hxm
            cases hxm

theorem alt_fold_ok (content : List Rule) :
    ∀ (b : Bool) (acc : List Rule), (∀ x ∈ content, wf x = true) →
    (∀ x ∈ acc, wf x = true ∧ isAlternativeNode x = false) →
    (∀ x ∈ acc, isMaybeNode x = true → 2 ≤ acc.length) →
    (∀ x ∈ (content.foldl altAccumStep (b, acc)).2,
      wf x = true ∧ isAlternativeNode x = false) ∧
    (∀ x ∈ (content.foldl altAccumStep (b, acc)).2, isMaybeNode x = true →
      2 ≤ (content.foldl altAccumStep (b, acc)).2.length) := by
  induction content with
  | nil =>
    intro b acc h hacc hmb
    exact ⟨by simpa using hacc, by simpa using hmb⟩
  | cons e es ih =>
    intro b acc h hacc hmb
    rw [List.foldl_cons]
    have hwfe : wf e = true := h e (by simp)
    have hes : ∀ x ∈ es, wf x = true := fun x hx => h x (by simp [hx])
    obtain ⟨h1, h2⟩ := alt_step_ok b acc e hwfe hacc hmb
    exact ih (altAccumStep (b, acc) e).1 (altAccumStep (b, acc) e).2 hes h1 h2

/-- C7: every Rule Content Tree produced by the sequence combinator, the
alternative combinator, or suffix application — each given a non-empty
input whose elements already satisfy the invariant — again satisfies the
invariant: no `Sequence` directly inside a `Sequence`, no `Alternative`
directly inside an `Alternative`, at least two children for each, and no
`Maybe` directly inside a `Maybe`. -/
theorem c7_invariant_preservation :
    (∀ content : List Rule, content ≠ [] → (∀ x ∈ content, wf x = true) →
      wf (make_seq_rule content) = true) ∧
    (∀ content : List Rule, content ≠ [] → (∀ x ∈ content, wf x = true) →
      wf (make_alt_rule content) = true) ∧
    (∀ (e : Rule) (s : Option String), wf e = true →
      wf (wrap_suffix e s) = true) := by
  refine ⟨?_, ?_, ?_⟩
  · intro content hne h
    obtain ⟨hmem, _, hlen⟩ := seq_fold_ok content [] h (by simp)
    have hpos : 0 < (content.foldl seqAccumStep []).length := by
      simpa using hlen hne
    have heq : make_seq_rule content =
        match content.foldl seqAccumStep [] with
        | [e] => e
        | els => Rule.sequence els := by
      simp [make_seq_rule]
    rw [heq]
    cases hfold : content.foldl seqAccumStep [] with
    | nil => rw [hfold] at hpos; simp at hpos
    | cons x rest =>
      rw [hfold] at hmem
      cases rest with
      | nil => exact (hmem x (by simp)).1
      | cons y t =>
        simp only [wf, Bool.and_eq_true, decide_eq_true_eq, List.all_eq_true,
          Bool.not_eq_true']
        refine ⟨⟨by simp, ?_⟩, (wfList_iff _).mpr ?_⟩
        · intro c hc; exact (hmem c hc).2
        · intro c hc; exact (hmem c hc).1
  · intro content hne h
    obtain ⟨h1, h2⟩ := alt_fold_ok content false [] h (by simp) (by simp)
    have heq : make_alt_rule content =
        match (content.foldl altAccumStep (false, [])).2 with
        | [] => Rule.empty
        | [a] => if (content.foldl altAccumStep (false, [])).1 then Rule.maybe a else a
        | alts =>
          if (content.foldl altAccumStep (false, [])).1 then
            Rule.maybe (Rule.alternative alts)
          else Rule.alternative alts := by
      simp [make_alt_rule]
    rw [heq]
    cases hfold : (content.foldl altAccumStep (false, [])).2 with
    | nil => simp [wf]
    | cons x rest =>
      rw [hfold] at h1 h2
      cases rest with
      | nil =>
        have hx := h1 x (by simp)
        have hxm : isMaybeNode x = false := by
          by_contra hc
          have := h2 x (by simp) (by simpa using hc)
          simp at this
        cases (content.foldl altAccumStep (false, [])).1
        · simpa using hx.1
        · simp only [if_true]
          simp [wf, hxm, hx.1]
      | cons y t =>
        have halt : wf (Rule.alternative (x :: y :: t)) = true := by
          simp only [wf, Bool.and_eq_true, decide_eq_true_eq, List.all_eq_true,
            Bool.not_eq_true']
          refine ⟨⟨by simp, ?_⟩, (wfList_iff _).mpr ?_⟩
          · intro c hc; exact (h1 c hc).2
          · intro c hc; exact (h1 c hc).1
        cases (content.foldl altAccumStep (false, [])).1
        · simpa using halt
        · simp only [if_true]
          exact wf_maybe_intro _ rfl halt
  · intro e s hwf
    by_cases he : isEmptyNode e = true
    · simp [wrap_suffix, he, hwf]
    · cases s with
      | none => simpa [wrap_suffix, he] using hwf
      | some str =>
        by_cases h1 : strStartsWith str "?" = true
        · by_cases hm : isMaybeNode e = true
          · simp [wrap_suffix, he, h1, hm, hwf]
          · have hmay : wf (Rule.maybe e) = true := by
              simp [wf, (by simpa using hm : isMaybeNode e = false), hwf]
            simp [wrap_suffix, he, h1, hm, hmay]
        · by_cases h2 : strStartsWith str "+" = true
          · simp [wrap_suffix, he, h1, h2, wf, hwf]
          · by_cases h3 : strStartsWith str "*" = true
            · simp [wrap_suffix, he, h1, h2, h3, wf, hwf]
            · simp [wrap_suffix, he, h1, h2, h3, hwf]

/-- C7 witness: the three builders at concrete invariant-satisfying
inputs. -/
theorem c7_invariant_preservation_witness :
    wf (make_seq_rule [Rule.literal "'a'", Rule.literal "'b'"]) = true ∧
    wf (make_alt_rule [Rule.literal "'a'", Rule.empty]) = true ∧
    wf (wrap_suffix (Rule.maybe (Rule.literal "'a'")) (some "?")) = true :=
  ⟨c7_invariant_preservation.1 [Rule.literal "'a'", Rule.literal "'b'"] (by simp)
      (by intro x hx; simp at hx; rcases hx with rfl | rfl <;> simp [wf]),
   c7_invariant_preservation.2.1 [Rule.literal "'a'", Rule.empty] (by simp)
      (by intro x hx; simp at hx; rcases hx with rfl | rfl <;> simp [wf]),
   c7_invariant_preservation.2.2 (Rule.maybe (Rule.literal "'a'")) (some "?")
      (by simp [wf, isMaybeNode])⟩

theorem toList_mk (l : List Char) : (String.mk l).toList = l := rfl

theorem isCmdChar_not_pyspace (c : Char) (h : isCmdChar c = true) :
    isPySpace c = false := by
  by_contra hc
  have hc' : isPySpace c = true := by simpa using hc
  have hd : c = ' ' ∨ c = '\t' ∨ c = '\n' ∨ c = '\r' ∨ c = '\x0b' ∨ c = '\x0c' := by
    simpa [isPySpace, Bool.or_eq_true, decide_eq_true_eq, or_assoc] using hc'
  rcases hd with rfl | rfl | rfl | rfl | rfl | rfl <;> revert h <;> decide

theorem takeWhile_app_all {α : Type} (p : α → Bool) (l1 l2 : List α)
    (h : ∀ c ∈ l1, p c = true) :
    (l1 ++ l2).takeWhile p = l1 ++ l2.takeWhile p := by
  induction l1 with
  | nil => simp
  | cons c cs ih =>
    simp [List.takeWhile_cons, h c (by simp), ih (fun x hx => h x (by simp [hx]))]

theorem dropWhile_app_all {α : Type} (p : α → Bool) (l1 l2 : List α)
    (h : ∀ c ∈ l1, p c = true) :
    (l1 ++ l2).dropWhile p = l2.dropWhile p := by
  induction l1 with
  | nil => simp
  | cons c cs ih =>
    simp [List.dropWhile_cons, h c (by simp), ih (fun x hx => h x (by simp [hx]))]

theorem dropWhile_cons_false {α : Type} (p : α → Bool) (c : α) (l : List α)
    (h : p c = false) : (c :: l).dropWhile p = c :: l := by
  simp [List.dropWhile_cons, h]

theorem takeWhile_all {α : Type} (p : α → Bool) (l : List α)
    (h : ∀ c ∈ l, p c = true) : l.takeWhile p = l := by
  induction l with
  | nil => rfl
  | cons c cs ih =>
    simp [List.takeWhile_cons, h c (by simp), ih (fun x hx => h x (by simp [hx]))]

/-- C1 counterexample: the comment token `//@ importance -3` — the exact
token of the claim — does **not** match `CMD_RE`, because the pattern
requires a `doc :` marker between `//@` and the command: documentation
extraction leaves `importance` at its default 1 rather than -3, and the
single diagnostic is the invalid-command report, not the negative-value
warning.  The spec's pattern `//@ <command> <rest-of-line>`
(`specDirectiveMatch`) accepts the very token that `CMD_RE` rejects. -/
theorem c1_directive_pattern_counterexample :
    (load_docs "g.g4" 0 [{ text := "//@ importance -3", line := 1 }]).1.importance = 1 ∧
    ¬ (load_docs "g.g4" 0
        [{ text := "//@ importance -3", line := 1 }]).1.importance = -3 ∧
    (load_docs "g.g4" 0 [{ text := "//@ importance -3", line := 1 }]).2 =
      ["g.g4:1: WARNING: invalid command //@ importance -3"] ∧
    cmdReMatch "//@ importance -3" = none ∧
    specDirectiveMatch "//@ importance -3" = some ("importance", "-3") :=
  ⟨by decide, by decide, by decide, by decide, by decide⟩

/-- C1 (amended): a comment run holding exactly the token
`//@ doc: importance -3` yields `importance = -3` and exactly one
diagnostic — the negative-value warning, the value still applied; and a
`//@` token is parsed against the pattern
`//@ doc: <command> <rest-of-line>`: every string of that shape (command
non-empty over `[a-zA-Z0-9_-]`, rest starting with a non-space character
and holding no newline) matches with exactly those groups. -/
theorem c1_directive_pattern_amended :
    ((load_docs "g.g4" 0
        [{ text := "//@ doc: importance -3", line := 1 }]).1.importance = -3 ∧
     (load_docs "g.g4" 0 [{ text := "//@ doc: importance -3", line := 1 }]).2 =
       ["g.g4:1: WARNING: importance should not be negative"]) ∧
    (∀ cmd ctx : List Char, cmd ≠ [] →
      (∀ c ∈ cmd, isCmdChar c = true) →
      (∀ c ∈ ctx, c ≠ '\n') →
      (∀ c ∈ ctx.head?.toList, isPySpace c = false) →
      cmdReMatch (String.mk ('/' :: '/' :: '@' :: ' ' :: 'd' :: 'o' :: 'c' :: ':' ::
          ' ' :: (cmd ++ ' ' :: ctx))) =
        some (String.mk cmd, String.mk ctx)) := by
  constructor
  · exact ⟨by decide, by decide⟩
  · intro cmd ctx hne hcmd hnl hhead
    obtain ⟨c0, cs0, rfl⟩ : ∃ c0 cs0, cmd = c0 :: cs0 := by
      cases cmd with
      | nil => exact absurd rfl hne
      | cons a b => exact ⟨a, b, rfl⟩
    have hc0 : isPySpace c0 = false :=
      isCmdChar_not_pyspace c0 (hcmd c0 (by simp))
    have s1 : litChars ['/', '/', '@']
        ('/' :: '/' :: '@' :: ' ' :: 'd' :: 'o' :: 'c' :: ':' :: ' ' ::
          ((c0 :: cs0) ++ ' ' :: ctx)) =
        some (' ' :: 'd' :: 'o' :: 'c' :: ':' :: ' ' :: ((c0 :: cs0) ++ ' ' :: ctx)) :=
      rfl
    have s2 : List.dropWhile isPySpace
        (' ' :: 'd' :: 'o' :: 'c' :: ':' :: ' ' :: ((c0 :: cs0) ++ ' ' :: ctx)) =
        'd' :: 'o' :: 'c' :: ':' :: ' ' :: ((c0 :: cs0) ++ ' ' :: ctx) := rfl
    have s3 : litChars ['d', 'o', 'c']
        ('d' :: 'o' :: 'c' :: ':' :: ' ' :: ((c0 :: cs0) ++ ' ' :: ctx)) =
        some (':' :: ' ' :: ((c0 :: cs0) ++ ' ' :: ctx)) := rfl
    have s4 : List.dropWhile isPySpace (':' :: ' ' :: ((c0 :: cs0) ++ ' ' :: ctx)) =
        ':' :: ' ' :: ((c0 :: cs0) ++ ' ' :: ctx) := rfl
    have s5 : litChars [':'] (':' :: ' ' :: ((c0 :: cs0) ++ ' ' :: ctx)) =
        some (' ' :: ((c0 :: cs0) ++ ' ' :: ctx)) := rfl
    have s6 : List.dropWhile isPySpace (' ' :: ((c0 :: cs0) ++ ' ' :: ctx)) =
        c0 :: (cs0 ++ ' ' :: ctx) := by
      show List.dropWhile isPySpace ((c0 :: cs0) ++ ' ' :: ctx) = c0 :: (cs0 ++ ' ' :: ctx)
      exact dropWhile_cons_false isPySpace c0 (cs0 ++ ' ' :: ctx) hc0
    have s7 : List.takeWhile isCmdChar (c0 :: (cs0 ++ ' ' :: ctx)) = c0 :: cs0 := by
      show List.takeWhile isCmdChar ((c0 :: cs0) ++ ' ' :: ctx) = c0 :: cs0
      rw [takeWhile_app_all isCmdChar (c0 :: cs0) (' ' :: ctx) hcmd]
      simp [List.takeWhile_cons, isCmdChar]
    have s8 : (c0 :: cs0).isEmpty = false := rfl
    have s9 : List.dropWhile isCmdChar (c0 :: (cs0 ++ ' ' :: ctx)) = ' ' :: ctx := by
      show List.dropWhile isCmdChar ((c0 :: cs0) ++ ' ' :: ctx) = ' ' :: ctx
      rw [dropWhile_app_all isCmdChar (c0 :: cs0) (' ' :: ctx) hcmd]
      exact dropWhile_cons_false isCmdChar ' ' ctx (by decide)
    have s10 : List.dropWhile isPySpace (' ' :: ctx) = ctx := by
      show List.dropWhile isPySpace ctx = ctx
      cases ctx with
      | nil => rfl
      | cons c cs => exact dropWhile_cons_false isPySpace c cs (hhead c (by simp))
    have s11 : List.takeWhile (fun c => c ≠ '\n') ctx = ctx := by
      refine takeWhile_all _ ctx (fun c hc => ?_)
      simpa using hnl c hc
    simp only [cmdReMatch, toList_mk, s1, s2, s3, s4, s5, s6, s7, s8, s9, s10, s11,
      Bool.false_eq_true, if_false]

/-- C1 witness for the amended pattern law: the canonical spelling of
the importance directive. -/
theorem c1_directive_pattern_amended_witness :
    cmdReMatch (String.mk ('/' :: '/' :: '@' :: ' ' :: 'd' :: 'o' :: 'c' :: ':' ::
        ' ' :: ("importance".toList ++ ' ' :: "-3".toList))) =
      some (String.mk "importance".toList, String.mk "-3".toList) :=
  c1_directive_pattern_amended.2 "importance".toList "-3".toList (by decide)
    (by decide) (by decide) (by decide)
